import Mathlib

/-
Verification of the hebo-eval core against its natural-language specification.

The development shallowly embeds two parts of the repository:

* the evaluation executor (`EvaluationExecutor` in the source file given as
  src/unnamed/part_000): `executeTestCase`, `executeTestCasesInParallel`
  and `evaluateFromDirectory` are translated directly from that source;

* the tokenizer, parser and loader, whose implementation files are not part
  of the provided sources (only their unit tests, in src/unnamed/part_001,
  are).  Those are modelled from the specification (spec.md sections 4.1 to
  4.3) and validated against every unit test of src/unnamed/part_001 that
  exercises them; the validating `example`s appear after the definitions.

Machine reals (JS `number`) are modelled as rationals; wall-clock time is
modelled by giving each external collaborator call an explicit duration.
-/

set_option maxHeartbeats 1000000

namespace HeboEval

/-! ## Character-list string utilities

JS string primitives (`trim`, splitting on line breaks, searching for a
substring) are re-implemented over `List Char` so that every definition
reduces inside the kernel. -/

/-- Whitespace characters recognised by the JS `trim`/`\s` behaviour the
source relies on (space, tab, newline, carriage return, form feed,
vertical tab). -/
def isWsChar (c : Char) : Bool :=
  c = ' ' || c = '\t' || c = '\n' || c = '\r' || c = Char.ofNat 12 || c = Char.ofNat 11

def trimLeftCh (cs : List Char) : List Char := cs.dropWhile isWsChar

def trimRightCh (cs : List Char) : List Char := (cs.reverse.dropWhile isWsChar).reverse

def trimCh (cs : List Char) : List Char := trimRightCh (trimLeftCh cs)

/-- Model of JS `String.prototype.trim`. -/
def jsTrim (s : String) : String := ⟨trimCh s.data⟩

/-- Split on any newline variant (`\n`, `\r\n`, or a lone `\r`), exactly as
the tokenizer does; `splitLinesCh []` is `[[]]`, matching the JS split of
an empty string, which yields one empty segment. -/
def splitLinesCh : List Char → List (List Char)
  | [] => [[]]
  | '\r' :: '\n' :: rest => [] :: splitLinesCh rest
  | '\r' :: rest => [] :: splitLinesCh rest
  | '\n' :: rest => [] :: splitLinesCh rest
  | c :: rest =>
    match splitLinesCh rest with
    | [] => [[c]]
    | l :: ls => (c :: l) :: ls

/-- Split a line at its first colon, returning the text before and after it. -/
def breakAtColon : List Char → Option (List Char × List Char)
  | [] => none
  | ':' :: rest => some ([], rest)
  | c :: rest => (breakAtColon rest).map (fun p => (c :: p.1, p.2))

/-- Remove a single leading space if present (the `\s?` of the role/tool
line patterns). -/
def stripOneSpace : List Char → List Char
  | ' ' :: rest => rest
  | cs => cs

/-- Split at the first occurrence of the substring `pat`, returning the text
before and after it, or `none` when `pat` does not occur. -/
def splitAtSub (pat : List Char) (cs : List Char) : Option (List Char × List Char) :=
  match cs with
  | [] => if pat.isPrefixOf ([] : List Char) then some ([], []) else none
  | c :: rest =>
    if pat.isPrefixOf (c :: rest) then some ([], (c :: rest).drop pat.length)
    else (splitAtSub pat rest).map (fun p => (c :: p.1, p.2))

/-! ## Data model (spec.md section 3) -/

/-- Closed set of conversation-participant identities. -/
inductive MessageRole where
  | user
  | assistant
  | system
  | developer
  | human_agent
  | tool
deriving DecidableEq, Repr, Inhabited

inductive TokenType where
  | role
  | content
  | tool_use
  | tool_response
deriving DecidableEq, Repr

structure Token where
  type : TokenType
  value : String
deriving DecidableEq, Repr

/-! ## Tokenizer

Modelled from the spec: the implementation file of the tokenizer
(`TestCaseParser.tokenize`) is not among the provided sources; the
definitions below follow spec.md section 4.1 and are checked against the
tokenize unit tests of src/unnamed/part_001. -/

def toolUseMarker : List Char := "tool use:".data

def toolRespMarker : List Char := "tool response:".data

/-- Accepted textual role labels, in the order the error message lists
them first. -/
def validRoleLabels : List String :=
  ["user", "assistant", "human agent", "system", "developer", "tool"]

/-- Modelled from the spec: error message for an unrecognised role label
(the unit test checks exactly this text as a substring). -/
def invalidRoleMsg (label : String) : String :=
  "Invalid role: " ++ label ++ ". Valid roles are: user, assistant, human agent"

/-- Flush the pending content accumulator into a content token: segments are
joined with line breaks and the result trimmed. -/
def joinSegs : List (List Char) → List Char
  | [] => []
  | [l] => l
  | l :: ls => l ++ '\n' :: joinSegs ls

def flushAcc : Option (List (List Char)) → List Token
  | none => []
  | some segs => [⟨TokenType.content, ⟨trimCh (joinSegs segs)⟩⟩]

def pushSeg : Option (List (List Char)) → List Char → Option (List (List Char))
  | none, seg => some [seg]
  | some segs, seg => some (segs ++ [seg])

/-- Modelled from the spec: the line loop of `tokenize`.  `acc` is the
content accumulator of the currently open block (section 4.1): a role line
flushes it and opens a fresh one seeded with the text after the colon, a
tool marker line flushes it and emits a standalone tool token, any other
line extends it (the label indentation stripped), and an unknown role
label before a colon fails. -/
def tokenizeLines : Option (List (List Char)) → List (List Char) → Except String (List Token)
  | acc, [] => .ok (flushAcc acc)
  | acc, line :: rest =>
    let lt := trimLeftCh line
    if toolUseMarker.isPrefixOf lt then
      match tokenizeLines none rest with
      | .error e => .error e
      | .ok more =>
        .ok (flushAcc acc ++ ⟨TokenType.tool_use, ⟨stripOneSpace (lt.drop toolUseMarker.length)⟩⟩ :: more)
    else if toolRespMarker.isPrefixOf lt then
      match tokenizeLines none rest with
      | .error e => .error e
      | .ok more =>
        .ok (flushAcc acc ++ ⟨TokenType.tool_response, ⟨stripOneSpace (lt.drop toolRespMarker.length)⟩⟩ :: more)
    else
      match breakAtColon lt with
      | some (p, after) =>
        let label := trimCh p
        if label.isEmpty then tokenizeLines (pushSeg acc lt) rest
        else if validRoleLabels.contains (⟨label⟩ : String) then
          match tokenizeLines (some [stripOneSpace after]) rest with
          | .error e => .error e
          | .ok more => .ok (flushAcc acc ++ ⟨TokenType.role, ⟨label⟩⟩ :: more)
        else .error (invalidRoleMsg ⟨label⟩)
      | none => tokenizeLines (pushSeg acc lt) rest

/-- Modelled from the spec: `tokenize(text)` (spec.md section 4.1). -/
def tokenize (text : String) : Except String (List Token) :=
  tokenizeLines none (splitLinesCh text.data)

/-! Validation of the tokenizer model against the unit tests of
src/unnamed/part_001. -/

example :
    tokenize "user: Hello\nassistant: Hi there\nuser: How are you?" =
      .ok [⟨.role, "user"⟩, ⟨.content, "Hello"⟩, ⟨.role, "assistant"⟩, ⟨.content, "Hi there"⟩,
        ⟨.role, "user"⟩, ⟨.content, "How are you?"⟩] := by rfl

example :
    tokenize "user: Hello\r\nassistant: Hi there\r\nuser: How are you?" =
      .ok [⟨.role, "user"⟩, ⟨.content, "Hello"⟩, ⟨.role, "assistant"⟩, ⟨.content, "Hi there"⟩,
        ⟨.role, "user"⟩, ⟨.content, "How are you?"⟩] := by rfl

example :
    tokenize "user: Hello\r\nassistant: Hi there\nuser: How are you?\r\n" =
      .ok [⟨.role, "user"⟩, ⟨.content, "Hello"⟩, ⟨.role, "assistant"⟩, ⟨.content, "Hi there"⟩,
        ⟨.role, "user"⟩, ⟨.content, "How are you?"⟩] := by rfl

example :
    tokenize "user: Hello\nassistant: :This is a line starting with colon\nuser: How are you?" =
      .ok [⟨.role, "user"⟩, ⟨.content, "Hello"⟩, ⟨.role, "assistant"⟩,
        ⟨.content, ":This is a line starting with colon"⟩,
        ⟨.role, "user"⟩, ⟨.content, "How are you?"⟩] := by rfl

example :
    tokenize "user: Hello\nuser123: This should not be parsed as a role\nassistant: Hi there" =
      .error "Invalid role: user123. Valid roles are: user, assistant, human agent" := by rfl

example :
    tokenize "user:\nassistant: Hi there\nuser: " =
      .ok [⟨.role, "user"⟩, ⟨.content, ""⟩, ⟨.role, "assistant"⟩, ⟨.content, "Hi there"⟩,
        ⟨.role, "user"⟩, ⟨.content, ""⟩] := by rfl

example :
    tokenize "user: Hello\n\n\nassistant: Hi there\n\n\nuser: How are you?" =
      .ok [⟨.role, "user"⟩, ⟨.content, "Hello"⟩, ⟨.role, "assistant"⟩, ⟨.content, "Hi there"⟩,
        ⟨.role, "user"⟩, ⟨.content, "How are you?"⟩] := by rfl

example :
    tokenize "assistant: Let me check that\ntool use: search\targs: \x7b\"query\": \"test\"\x7d\n\t\ttool response: Found results" =
      .ok [⟨.role, "assistant"⟩, ⟨.content, "Let me check that"⟩,
        ⟨.tool_use, "search\targs: \x7b\"query\": \"test\"\x7d"⟩,
        ⟨.tool_response, "Found results"⟩] := by rfl

example :
    tokenize "assistant: Let me check that\ntool use: search args: \x7b\"query\": \"test\"\x7d\ntool response: Found results" =
      .ok [⟨.role, "assistant"⟩, ⟨.content, "Let me check that"⟩,
        ⟨.tool_use, "search args: \x7b\"query\": \"test\"\x7d"⟩,
        ⟨.tool_response, "Found results"⟩] := by rfl

/-! ## JSON validity checker

Modelled from the spec: tool arguments "must be syntactically valid JSON
text" — validity in the source is decided by the JS builtin `JSON.parse`,
re-implemented here as a recursive-descent recogniser of the json.org
grammar (whitespace, literals, numbers, strings with escapes, arrays,
objects), with explicit fuel in place of general recursion. -/

def qChar : Char := Char.ofNat 34

def lbChar : Char := Char.ofNat 123

def rbChar : Char := Char.ofNat 125

def skipJWs (cs : List Char) : List Char :=
  cs.dropWhile (fun c => c = ' ' || c = '\t' || c = '\n' || c = '\r')

def isHexDigit (c : Char) : Bool :=
  c.isDigit || ('a' ≤ c && c ≤ 'f') || ('A' ≤ c && c ≤ 'F')

def isJEscapeChar (c : Char) : Bool :=
  c = qChar || c = '\\' || c = '/' || c = 'b' || c = 'f' || c = 'n' || c = 'r' || c = 't'

/-- Recognise the remainder of a JSON string, the opening quote already
consumed; returns the input after the closing quote. -/
def jString : ℕ → List Char → Option (List Char)
  | 0, _ => none
  | _ + 1, [] => none
  | fuel + 1, c :: rest =>
    if c = qChar then some rest
    else if c = '\\' then
      match rest with
      | [] => none
      | e :: rest2 =>
        if e = 'u' then
          match rest2 with
          | h1 :: h2 :: h3 :: h4 :: rest3 =>
            if isHexDigit h1 && isHexDigit h2 && isHexDigit h3 && isHexDigit h4 then
              jString fuel rest3
            else none
          | _ => none
        else if isJEscapeChar e then jString fuel rest2
        else none
    else if c.toNat < 32 then none
    else jString fuel rest

/-- One or more decimal digits. -/
def jDigits (cs : List Char) : Option (List Char) :=
  match cs with
  | c :: rest => if c.isDigit then some (rest.dropWhile Char.isDigit) else none
  | [] => none

def jExpPart (cs : List Char) : Option (List Char) :=
  match cs with
  | c :: rest =>
    if c = 'e' || c = 'E' then
      match rest with
      | s :: rest2 => if s = '+' || s = '-' then jDigits rest2 else jDigits rest
      | [] => none
    else some cs
  | [] => some cs

def jFracPart (cs : List Char) : Option (List Char) :=
  match cs with
  | '.' :: rest => (jDigits rest).bind jExpPart
  | _ => jExpPart cs

/-- Recognise a JSON number: `-?(0|[1-9][0-9]*)(\.[0-9]+)?([eE][+-]?[0-9]+)?`. -/
def jNumber (cs : List Char) : Option (List Char) :=
  let cs1 := match cs with
    | '-' :: rest => rest
    | _ => cs
  match cs1 with
  | '0' :: rest => jFracPart rest
  | c :: rest => if c.isDigit then jFracPart (rest.dropWhile Char.isDigit) else none
  | [] => none

mutual

/-- Recognise one JSON value after skipping leading whitespace; returns the
remaining input. -/
def jValue : ℕ → List Char → Option (List Char)
  | 0, _ => none
  | fuel + 1, cs0 =>
    let cs := skipJWs cs0
    if "true".data.isPrefixOf cs then some (cs.drop 4)
    else if "false".data.isPrefixOf cs then some (cs.drop 5)
    else if "null".data.isPrefixOf cs then some (cs.drop 4)
    else
      match cs with
      | [] => none
      | c :: rest =>
        if c = qChar then jString (rest.length + 1) rest
        else if c = lbChar then
          match skipJWs rest with
          | c2 :: rest2 => if c2 = rbChar then some rest2 else jObjMembers fuel rest
          | [] => none
        else if c = '[' then
          match skipJWs rest with
          | c2 :: rest2 => if c2 = ']' then some rest2 else jArrItems fuel rest
          | [] => none
        else jNumber cs

/-- Recognise the members of a JSON object after the opening brace (the
non-empty case); consumes through the closing brace. -/
def jObjMembers : ℕ → List Char → Option (List Char)
  | 0, _ => none
  | fuel + 1, cs0 =>
    match skipJWs cs0 with
    | c :: rest =>
      if c = qChar then
        match jString (rest.length + 1) rest with
        | none => none
        | some cs2 =>
          match skipJWs cs2 with
          | ':' :: cs4 =>
            match jValue fuel cs4 with
            | none => none
            | some cs5 =>
              match skipJWs cs5 with
              | ',' :: cs7 => jObjMembers fuel cs7
              | c2 :: cs7 => if c2 = rbChar then some cs7 else none
              | [] => none
          | _ => none
      else none
    | [] => none

/-- Recognise the items of a JSON array after the opening bracket (the
non-empty case); consumes through the closing bracket. -/
def jArrItems : ℕ → List Char → Option (List Char)
  | 0, _ => none
  | fuel + 1, cs0 =>
    match jValue fuel cs0 with
    | none => none
    | some cs1 =>
      match skipJWs cs1 with
      | ',' :: cs2 => jArrItems fuel cs2
      | c :: cs2 => if c = ']' then some cs2 else none
      | [] => none

end

/-- Modelled from the spec: `JSON.parse` succeeds on a text exactly when it
is one JSON value followed only by whitespace. -/
def jsonValid (s : String) : Bool :=
  match jValue (2 * s.data.length + 4) s.data with
  | some rest => (skipJWs rest).isEmpty
  | none => false

example : jsonValid "\x7b\"query\": \"test\"\x7d" = true := by rfl
example : jsonValid "\x7b\"location\": \"New York\"\x7d" = true := by rfl
example : jsonValid "invalid json" = false := by rfl
example : jsonValid "" = false := by rfl
example : jsonValid " [1, 2.5e3, \"a\\n\", true, null, \x7b\x7d, []] " = true := by rfl
example : jsonValid "\x7b\"a\": 1,\x7d" = false := by rfl
example : jsonValid "nope" = false := by rfl
example : jsonValid "-0.5" = true := by rfl
example : jsonValid "01" = false := by rfl

/-! ## Parser (spec.md section 4.2)

Modelled from the spec: the implementation file of `Parser.parse` is not
among the provided sources; the definitions below follow spec.md section
4.2 and are checked against the parse unit tests of src/unnamed/part_001. -/

structure ToolUsage where
  name : String
  args : String
deriving DecidableEq, Repr

structure ToolResponse where
  content : String
deriving DecidableEq, Repr

structure MessageBlock where
  role : MessageRole
  content : String
  toolUsages : List ToolUsage
  toolResponses : List ToolResponse
deriving DecidableEq, Repr

instance : Inhabited MessageBlock := ⟨⟨.user, "", [], []⟩⟩

structure TestCase where
  id : String
  name : String
  messageBlocks : List MessageBlock
deriving DecidableEq, Repr, Inhabited

/-- Map an accepted textual role label to its `MessageRole`. -/
def roleOfLabel (label : String) : MessageRole :=
  if label = "user" then .user
  else if label = "assistant" then .assistant
  else if label = "human agent" then .human_agent
  else if label = "system" then .system
  else if label = "developer" then .developer
  else .tool

def toolArgsErrorMsg : String := "Tool args must be valid JSON"

def argsMarker : List Char := "args:".data

/-- Modelled from the spec: a `tool_use` token value is parsed as
`"<name> args: <json>"` — split on the first `args:` marker, trim the
name, and verify the remainder is syntactically valid JSON (which is then
stored as the original string, not re-serialized). -/
def parseToolUse (v : String) : Except String ToolUsage :=
  let pieces := match splitAtSub argsMarker v.data with
    | some (b, a) => (b, a)
    | none => (v.data, [])
  let args := trimCh pieces.2
  if jsonValid ⟨args⟩ then .ok ⟨⟨trimCh pieces.1⟩, ⟨args⟩⟩
  else .error toolArgsErrorMsg

/-- Modelled from the spec: the token walk of `parse` (spec.md section 4.2):
a role token finalizes the current block and opens a new one, a content
token sets the current block's content, tool tokens are validated and
attached to the current block. -/
def buildBlocks : Option MessageBlock → List Token → Except String (List MessageBlock)
  | cur, [] => .ok cur.toList
  | cur, tok :: rest =>
    match tok.type with
    | .role =>
      match buildBlocks (some ⟨roleOfLabel tok.value, "", [], []⟩) rest with
      | .error e => .error e
      | .ok more => .ok (cur.toList ++ more)
    | .content =>
      match cur with
      | some b => buildBlocks (some { b with content := tok.value }) rest
      | none => buildBlocks none rest
    | .tool_use =>
      match parseToolUse tok.value with
      | .error e => .error e
      | .ok tu =>
        match cur with
        | some b => buildBlocks (some { b with toolUsages := b.toolUsages ++ [tu] }) rest
        | none => buildBlocks none rest
    | .tool_response =>
      match cur with
      | some b => buildBlocks (some { b with toolResponses := b.toolResponses ++ [⟨tok.value⟩] }) rest
      | none => buildBlocks none rest

/-- Modelled from the spec: `parse(text, name)` — tokenize, then assemble
message blocks; a TokenizeError surfaces as a ParseError with the same
message; the id is left for the loader to assign. -/
def parse (text name : String) : Except String TestCase :=
  match tokenize text with
  | .error e => .error e
  | .ok toks =>
    match buildBlocks none toks with
    | .error e => .error e
    | .ok blocks => .ok ⟨"", name, blocks⟩

/-! Validation of the parser model against the unit tests of
src/unnamed/part_001. -/

example :
    parse "user: Hello\nassistant: Hi there\nuser: How are you?" "test-case" =
      .ok ⟨"", "test-case",
        [⟨.user, "Hello", [], []⟩, ⟨.assistant, "Hi there", [], []⟩,
         ⟨.user, "How are you?", [], []⟩]⟩ := by rfl

example :
    parse "assistant: Let me check that\ntool use: search args: \x7b\"query\": \"test\"\x7d\ntool response: Found results\nassistant: Found it" "test-case" =
      .ok ⟨"", "test-case",
        [⟨.assistant, "Let me check that",
          [⟨"search", "\x7b\"query\": \"test\"\x7d"⟩], [⟨"Found results"⟩]⟩,
         ⟨.assistant, "Found it", [], []⟩]⟩ := by rfl

example :
    parse "user: hello\nassistant: hello how can I help you?\nuser: can you please search the weather in new york for me?\nassistant: sure\ntool use: weather_search args: \x7b\"location\": \"New York\"\x7d\ntool response: New York, NY, USA: 59 F Precipitation: 80% Humidity: 96% Wind: 2 mph\nassistant: It is rainy in New York today" "example" =
      .ok ⟨"", "example",
        [⟨.user, "hello", [], []⟩,
         ⟨.assistant, "hello how can I help you?", [], []⟩,
         ⟨.user, "can you please search the weather in new york for me?", [], []⟩,
         ⟨.assistant, "sure",
          [⟨"weather_search", "\x7b\"location\": \"New York\"\x7d"⟩],
          [⟨"New York, NY, USA: 59 F Precipitation: 80% Humidity: 96% Wind: 2 mph"⟩]⟩,
         ⟨.assistant, "It is rainy in New York today", [], []⟩]⟩ := by rfl

example :
    parse "invalid: Hello" "test-case" =
      .error "Invalid role: invalid. Valid roles are: user, assistant, human agent" := by rfl

example :
    parse "assistant: Let me check\ntool use: search args: invalid json\ntool response: some response" "test-case" =
      .error "Tool args must be valid JSON" := by rfl

/-! ## Loader (spec.md section 4.3)

Modelled from the spec: the implementation file of
`TestCaseLoader.loadFromDirectory` is not among the provided sources.  The
filesystem collaborator is modelled as a function from a directory path to
an optional listing (`none` = non-existent directory); each listed file
carries either its text or a read error. -/

instance {ε α : Type} [DecidableEq ε] [DecidableEq α] : DecidableEq (Except ε α) := fun a b =>
  match a, b with
  | .ok x, .ok y => if h : x = y then isTrue (by rw [h]) else isFalse (by simp [h])
  | .error x, .error y => if h : x = y then isTrue (by rw [h]) else isFalse (by simp [h])
  | .ok _, .error _ => isFalse (by simp)
  | .error _, .ok _ => isFalse (by simp)

structure FileEntry where
  filePath : String
  content : Except String String
deriving DecidableEq

structure LoadError where
  filePath : String
  message : String
deriving DecidableEq, Repr

structure LoadResult where
  testCases : List TestCase
  errors : List LoadError
deriving DecidableEq, Repr

abbrev FileSystem := String → Option (List FileEntry)

/-- Accepted transcript extension: the test corpus uses `.txt` files. -/
def acceptedFile (e : FileEntry) : Bool :=
  ".txt".data.isSuffixOf e.filePath.data

/-- Base name of a file: the segment after the last `/`, its extension
(after the last `.`) removed. -/
def baseNameCh (cs : List Char) : List Char :=
  let name := (cs.reverse.takeWhile (· ≠ '/')).reverse
  if name.contains '.' then ((name.reverse.dropWhile (· ≠ '.')).drop 1).reverse
  else name

/-- Modelled from the spec: load one file — a read failure or a parse
failure becomes an error entry carrying the file path; on success the
test case's name is the file's base name and its id is assigned equal to
the name (spec.md section 4.3). -/
def loadFile (e : FileEntry) : Except LoadError TestCase :=
  match e.content with
  | .error m => .error ⟨e.filePath, m⟩
  | .ok text =>
    match parse text ⟨baseNameCh e.filePath.data⟩ with
    | .error m => .error ⟨e.filePath, m⟩
    | .ok tc => .ok { tc with id := tc.name }

/-- Modelled from the spec: the per-file loop — when `stopOnError` is true,
processing halts at the first error (test cases from earlier files are
retained); when false, every file is attempted and all errors collected. -/
def processFiles (stopOnError : Bool) : List FileEntry → LoadResult
  | [] => ⟨[], []⟩
  | e :: rest =>
    match loadFile e with
    | .ok tc =>
      let r := processFiles stopOnError rest
      ⟨tc :: r.testCases, r.errors⟩
    | .error err =>
      if stopOnError then ⟨[], [err]⟩
      else
        let r := processFiles stopOnError rest
        ⟨r.testCases, err :: r.errors⟩

/-- Modelled from the spec: message of the single error entry produced by a
non-existent directory (its `filePath` is the directory path itself). -/
def dirNotFoundMsg (path : String) : String :=
  "Failed to read directory: " ++ path

/-- Modelled from the spec: `loadFromDirectory(path, stopOnError)` — never
fails at top level; a non-existent directory yields one error entry, and
otherwise the listing, filtered to accepted extensions in enumeration
order, is processed per file. -/
def loadFromDirectory (fs : FileSystem) (path : String) (stopOnError : Bool) : LoadResult :=
  match fs path with
  | none => ⟨[], [⟨path, dirNotFoundMsg path⟩]⟩
  | some entries => processFiles stopOnError (entries.filter acceptedFile)

/-! Validation of the loader model against the unit tests of
src/unnamed/part_001 (the temp directory is modelled as a concrete
listing). -/

def tmpValid1 : FileEntry := ⟨"/tmp/t/a_valid1.txt", .ok "user: Hello\nassistant: Hi there"⟩

def tmpInvalid : FileEntry := ⟨"/tmp/t/b_invalid.txt", .ok "invalid: content"⟩

def tmpValid2 : FileEntry := ⟨"/tmp/t/c_valid2.txt", .ok "user: How are you?\nassistant: Fine"⟩

def tmpFs : FileSystem := fun p =>
  if p = "/tmp/t" then some [tmpValid1, tmpInvalid, tmpValid2] else none

example :
    loadFromDirectory tmpFs "/tmp/t" true =
      ⟨[⟨"a_valid1", "a_valid1", [⟨.user, "Hello", [], []⟩, ⟨.assistant, "Hi there", [], []⟩]⟩],
       [⟨"/tmp/t/b_invalid.txt", "Invalid role: invalid. Valid roles are: user, assistant, human agent"⟩]⟩ := by rfl

example :
    (loadFromDirectory tmpFs "/tmp/t" false).testCases.map TestCase.name = ["a_valid1", "c_valid2"] ∧
      (loadFromDirectory tmpFs "/tmp/t" false).errors.map LoadError.filePath = ["/tmp/t/b_invalid.txt"] := by
  exact ⟨by rfl, by rfl⟩

example :
    loadFromDirectory tmpFs "/tmp/t/non-existent" true =
      ⟨[], [⟨"/tmp/t/non-existent", dirNotFoundMsg "/tmp/t/non-existent"⟩]⟩ := by rfl

/-! ## Evaluation executor (src/unnamed/part_000)

These definitions are translated from the `EvaluationExecutor` source.
The agent and the scoring service are the two external collaborators; each
call is modelled by its result (`Except` captures a thrown error) together
with the wall-clock duration the call takes, so that `performance.now()`
deltas around the calls can be stated. -/

structure AgentMessage where
  role : MessageRole
  content : String
deriving DecidableEq

structure AgentInput where
  messages : List AgentMessage
deriving DecidableEq

structure AgentOutput where
  response : String
deriving DecidableEq

structure Agent where
  sendInput : AgentInput → Except String AgentOutput
  sendDuration : AgentInput → ℚ

structure ScoringService where
  scoreStrings : String → String → Except String ℚ
  scoreDuration : String → String → ℚ

/-- The `threshold` and `maxConcurrency` values as the executor's constructor reads
them from the config (`config.threshold ?? 0.7`,
`config.maxConcurrency ?? 5`). -/
structure EvaluationConfig where
  threshold : Option ℚ
  maxConcurrency : Option ℕ

def thresholdOf (cfg : EvaluationConfig) : ℚ := cfg.threshold.getD (7 / 10)

def maxConcurrencyOf (cfg : EvaluationConfig) : ℕ := cfg.maxConcurrency.getD 5

structure TestCaseEvaluation where
  testCaseId : String
  success : Bool
  error : Option String
  score : ℚ
  executionTime : ℚ
  response : String
  testCase : TestCase
deriving DecidableEq

instance : Inhabited TestCaseEvaluation := ⟨⟨"", false, none, 0, 0, "", default⟩⟩

def twoBlocksMsg : String :=
  "Test case must have at least 2 message blocks: input and expected output"

/-- The agent input built from all message blocks but the last
(role/content pairs, in order). -/
def agentInputOf (tc : TestCase) : AgentInput :=
  ⟨tc.messageBlocks.dropLast.map (fun b => ⟨b.role, b.content⟩)⟩

/-- The last message block (`messageBlocks[messageBlocks.length - 1]`); the
source only reads it when at least 2 blocks are present, so the default is
never reached there. -/
def expectedBlockOf (tc : TestCase) : MessageBlock :=
  tc.messageBlocks.getLastD default

/-- Embeds `EvaluationExecutor.executeTestCase`.  The try/catch of the
source becomes the `Except` analysis: a thrown error (too few blocks, a
failed agent call, a failed scoring call) is caught and converted into a
failed evaluation.  `executionTime` is `performance.now() - startTime` at
the exact program point the source computes it: right after the agent call
on the path that reaches the scoring call, and inside the catch block
(after whatever already ran) on the error paths. -/
def executeTestCase (threshold : ℚ) (agent : Agent) (scoring : ScoringService)
    (tc : TestCase) : TestCaseEvaluation :=
  if tc.messageBlocks.length < 2 then
    ⟨tc.id, false, some twoBlocksMsg, 0, 0, "", tc⟩
  else
    let input := agentInputOf tc
    let expectedResponse := expectedBlockOf tc
    match agent.sendInput input with
    | .error e => ⟨tc.id, false, some e, 0, agent.sendDuration input, "", tc⟩
    | .ok response =>
      let executionTime := agent.sendDuration input
      match scoring.scoreStrings (jsTrim response.response) (jsTrim expectedResponse.content) with
      | .error e =>
        ⟨tc.id, false, some e, 0,
          agent.sendDuration input +
            scoring.scoreDuration (jsTrim response.response) (jsTrim expectedResponse.content),
          "", tc⟩
      | .ok score =>
        let isMatch := decide (threshold ≤ score)
        ⟨tc.id, isMatch, if isMatch then none else some "Response mismatch",
          score, executionTime, response.response, tc⟩

/-! ### Bounded-concurrency batch

`executeTestCasesInParallel` chunks the input
(`testCases.slice(i, i + maxConcurrency)` for `i = 0, k, 2k, ...`) and runs
each chunk through `Promise.all`.  The chunking loop is embedded with the
list length as explicit fuel (each iteration consumes at least one element
when `maxConcurrency ≥ 1`; for `maxConcurrency = 0` the source loop never
terminates, so no value is claimed there and every theorem assumes
`1 ≤ k`).

`Promise.all` is modelled faithfully to completion nondeterminism: a
schedule assigns each chunk a completion order (a permutation of the chunk
positions); results are gathered back into positional slots, which is what
makes the output order independent of the schedule. -/

def chunkGo (k : ℕ) : ℕ → List TestCase → List (List TestCase)
  | 0, _ => []
  | _ + 1, [] => []
  | fuel + 1, x :: rest => (x :: rest.take (k - 1)) :: chunkGo k fuel (rest.drop (k - 1))

/-- The `chunks` array of `executeTestCasesInParallel`. -/
def chunkList (k : ℕ) (xs : List TestCase) : List (List TestCase) :=
  chunkGo k xs.length xs

/-- The tasks of one chunk, keyed by their position, in completion order. -/
def completionsOf (f : TestCase → TestCaseEvaluation) (chunk : List TestCase)
    (order : List ℕ) : List (ℕ × TestCaseEvaluation) :=
  order.map (fun i => (i, f (chunk.getD i default)))

/-- Model of `Promise.all` over one chunk: whatever order the tasks complete in, each
result lands in the slot of its position. -/
def gatherChunk (f : TestCase → TestCaseEvaluation) (chunk : List TestCase)
    (order : List ℕ) : List TestCaseEvaluation :=
  (List.range chunk.length).map
    (fun j => ((completionsOf f chunk order).lookup j).getD default)

/-- A schedule is valid when it gives each chunk a completion order that is
a permutation of the chunk's positions. -/
def validScheduleB : List (List TestCase) → List (List ℕ) → Bool
  | [], [] => true
  | c :: cs, o :: os => decide (o.Perm (List.range c.length)) && validScheduleB cs os
  | _, _ => false

/-- The chunk loop: chunks are awaited strictly sequentially and their
results concatenated in order. -/
def executeChunksScheduled (f : TestCase → TestCaseEvaluation)
    (chunks : List (List TestCase)) (orders : List (List ℕ)) : List TestCaseEvaluation :=
  ((chunks.zip orders).map (fun p => gatherChunk f p.1 p.2)).flatten

/-- Embeds `EvaluationExecutor.executeTestCasesInParallel` (the inner
per-task catch is unreachable because `executeTestCase` already catches
everything); `orders` is the completion schedule resolved by the
environment. -/
def executeTestCasesInParallel (agent : Agent) (scoring : ScoringService) (threshold : ℚ)
    (testCases : List TestCase) (maxConcurrency : ℕ) (orders : List (List ℕ)) :
    List TestCaseEvaluation :=
  executeChunksScheduled (executeTestCase threshold agent scoring)
    (chunkList maxConcurrency testCases) orders

/-! ### Execution traces (for the concurrency bound)

A trace records, in wall-clock order, when each test-case task starts (its
agent invocation is issued) and when it finishes (its scoring call has
returned).  Under the chunked schedule, all tasks of a chunk start before
any of them is awaited, and the next chunk starts only after every task of
the current chunk has finished. -/

inductive ExecEvent where
  | start (i : ℕ)
  | finish (i : ℕ)
deriving DecidableEq, Repr

def isStart : ExecEvent → Bool
  | .start _ => true
  | .finish _ => false

def isFinish : ExecEvent → Bool
  | .start _ => false
  | .finish _ => true

/-- Events of one chunk whose tasks carry global indices `base`,
`base + 1`, ...: all starts (issued synchronously in positional order),
then the finishes in completion order. -/
def chunkTrace (base len : ℕ) (order : List ℕ) : List ExecEvent :=
  (List.range len).map (fun j => .start (base + j)) ++ order.map (fun j => .finish (base + j))

/-- The full trace of the chunked execution under a schedule. -/
def traceOf : List (List TestCase) → List (List ℕ) → ℕ → List ExecEvent
  | [], _, _ => []
  | _ :: _, [], _ => []
  | c :: cs, o :: os, base => chunkTrace base c.length o ++ traceOf cs os (base + c.length)

/-! ## End-to-end report (src/unnamed/part_000, `evaluateFromDirectory`) -/

structure ReportCaseRef where
  id : String
  input : String
  expected : String
deriving DecidableEq

structure EvaluationResult where
  testCase : ReportCaseRef
  score : ℚ
  passed : Bool
  error : Option String
  timestamp : ℕ
  response : String
deriving DecidableEq

structure EvaluationReport where
  totalTests : ℕ
  passedTests : ℕ
  failedTests : ℕ
  passRate : ℚ
  results : List EvaluationResult
  timestamp : ℕ
  duration : ℚ
deriving DecidableEq

/-- Model of the JS newline join. -/
def joinNl : List String → String
  | [] => ""
  | [s] => s
  | s :: rest => s ++ "\n" ++ joinNl rest

/-- The per-case projection of `evaluateFromDirectory`'s report: input is
the newline-join of all-but-last block contents, expected is the last
block's content (the source indexes `messageBlocks[length - 1]`, which is
only well-defined for non-empty block lists; the model supplies a default
block there).  `new Date()` is modelled by the ambient clock value. -/
def projectResult (now : ℕ) (r : TestCaseEvaluation) : EvaluationResult :=
  { testCase :=
      { id := r.testCaseId,
        input := joinNl (r.testCase.messageBlocks.dropLast.map MessageBlock.content),
        expected := (r.testCase.messageBlocks.getLastD default).content },
    score := r.score,
    passed := r.success,
    error := r.error,
    timestamp := now,
    response := r.response }

/-- Embeds `EvaluationExecutor.evaluateFromDirectory`: load, execute in
parallel, fold the aggregate counts, project the per-case results.  `now`
models `new Date()` and `elapsedMs` the `performance.now()` delta of the
whole call (`duration` is seconds). -/
def evaluateFromDirectory (agent : Agent) (scoring : ScoringService) (cfg : EvaluationConfig)
    (fs : FileSystem) (directoryPath : String) (stopOnError : Bool)
    (orders : List (List ℕ)) (now : ℕ) (elapsedMs : ℚ) : EvaluationReport :=
  let loadResult := loadFromDirectory fs directoryPath stopOnError
  let results := executeTestCasesInParallel agent scoring (thresholdOf cfg)
    loadResult.testCases (maxConcurrencyOf cfg) orders
  let passedTests := (results.filter TestCaseEvaluation.success).length
  let totalTests := results.length
  { totalTests := totalTests,
    passedTests := passedTests,
    failedTests := totalTests - passedTests,
    passRate := if totalTests > 0 then (passedTests : ℚ) / (totalTests : ℚ) else 0,
    results := results.map (projectResult now),
    timestamp := now,
    duration := elapsedMs / 1000 }

/-! ## Concrete collaborators used by witnesses and counterexamples -/

def oneBlockTc : TestCase := ⟨"tc1", "tc1", [⟨.user, "hi", [], []⟩]⟩

def twoBlockTc : TestCase := ⟨"t", "t", [⟨.user, "hi", [], []⟩, ⟨.assistant, "hello", [], []⟩]⟩

/-- An agent that always answers `hello` and whose call takes 5 ms. -/
def echoAgent : Agent := ⟨fun _ => .ok ⟨"hello"⟩, fun _ => 5⟩

/-- A scoring service that always scores 1 and whose call takes 3 ms. -/
def unitScoring : ScoringService := ⟨fun _ _ => .ok 1, fun _ _ => 3⟩

/-! ## C1 — executeTestCase on a test case with fewer than 2 message blocks -/

/-- C1: `executeTestCase` never throws (it is a total function into
`TestCaseEvaluation` by construction, every failure being caught into the
returned value), and on a test case with fewer than 2 message blocks the
returned evaluation has `success = false`, `score = 0` and the error
"Test case must have at least 2 message blocks: input and expected
output". -/
theorem executeTestCase_requires_two_blocks (threshold : ℚ) (agent : Agent)
    (scoring : ScoringService) (tc : TestCase)
    (h : tc.messageBlocks.length < 2) :
    executeTestCase threshold agent scoring tc =
      ⟨tc.id, false, some twoBlocksMsg, 0, 0, "", tc⟩ := by
  unfold executeTestCase
  rw [if_pos h]

/-- Witness for C1 at a concrete one-block test case. -/
theorem executeTestCase_requires_two_blocks_witness :
    oneBlockTc.messageBlocks.length < 2 ∧
      executeTestCase 1 echoAgent unitScoring oneBlockTc =
        ⟨"tc1", false, some twoBlocksMsg, 0, 0, "", oneBlockTc⟩ :=
  ⟨by decide, executeTestCase_requires_two_blocks 1 echoAgent unitScoring oneBlockTc (by decide)⟩

/-! ## C3 — pass/fail decided by score against the configured threshold -/

/-- C3: when a test case has at least 2 message blocks and both external
calls succeed, the evaluation succeeds exactly when the score — obtained by
scoring the trimmed actual response against the trimmed content of the last
message block — is at least the configured threshold, which defaults to
7/10 when no threshold is configured. -/
theorem executeTestCase_pass_iff_threshold (cfg : EvaluationConfig) (agent : Agent)
    (scoring : ScoringService) (tc : TestCase) (r : AgentOutput) (s : ℚ)
    (h2 : 2 ≤ tc.messageBlocks.length)
    (ha : agent.sendInput (agentInputOf tc) = .ok r)
    (hs : scoring.scoreStrings (jsTrim r.response) (jsTrim (expectedBlockOf tc).content) = .ok s) :
    ((executeTestCase (thresholdOf cfg) agent scoring tc).success = true ↔ thresholdOf cfg ≤ s) ∧
      (executeTestCase (thresholdOf cfg) agent scoring tc).score = s ∧
      (cfg.threshold = none → thresholdOf cfg = 7 / 10) := by
  have hlt : ¬ tc.messageBlocks.length < 2 := by omega
  refine ⟨?_, ?_, ?_⟩
  · simp only [executeTestCase, if_neg hlt, ha, hs, decide_eq_true_eq]
  · simp only [executeTestCase, if_neg hlt, ha, hs]
  · intro hnone
    simp [thresholdOf, hnone]

/-- Witness for C3: a two-block test case with a threshold configured as 1
and a score of 1 passes. -/
theorem executeTestCase_pass_iff_threshold_witness :
    2 ≤ twoBlockTc.messageBlocks.length ∧
      echoAgent.sendInput (agentInputOf twoBlockTc) = .ok ⟨"hello"⟩ ∧
      unitScoring.scoreStrings (jsTrim (AgentOutput.mk "hello").response)
        (jsTrim (expectedBlockOf twoBlockTc).content) = .ok 1 ∧
      ((executeTestCase (thresholdOf ⟨some 1, none⟩) echoAgent unitScoring twoBlockTc).success = true ↔
        thresholdOf ⟨some 1, none⟩ ≤ 1) :=
  ⟨by decide, rfl, rfl,
    (executeTestCase_pass_iff_threshold ⟨some 1, none⟩ echoAgent unitScoring twoBlockTc
      ⟨"hello"⟩ 1 (by decide) rfl rfl).1⟩

/-! ## C4 — what executionTime actually measures (corrected)

The claim states that `executionTime` is captured after both external calls
have completed.  In the source, `executionTime` is computed from
`performance.now()` immediately after `await agent.sendInput(input)` and
*before* `await this.scoringService.scoreStrings(...)`; on the path where
both calls succeed it therefore excludes the scoring call's duration. -/

/-- C4 counterexample: a successful run in which the agent call takes 5 ms
and the scoring call 3 ms reports `executionTime = 5`, not the combined
5 + 3 the claim requires. -/
theorem executionTime_excludes_scoring_counterexample :
    2 ≤ twoBlockTc.messageBlocks.length ∧
      echoAgent.sendInput (agentInputOf twoBlockTc) = .ok ⟨"hello"⟩ ∧
      unitScoring.scoreStrings (jsTrim (AgentOutput.mk "hello").response)
        (jsTrim (expectedBlockOf twoBlockTc).content) = .ok 1 ∧
      echoAgent.sendDuration (agentInputOf twoBlockTc) = 5 ∧
      unitScoring.scoreDuration (jsTrim (AgentOutput.mk "hello").response)
        (jsTrim (expectedBlockOf twoBlockTc).content) = 3 ∧
      (executeTestCase 1 echoAgent unitScoring twoBlockTc).executionTime = 5 ∧
      (5 : ℚ) ≠ 5 + 3 :=
  ⟨by decide, rfl, rfl, rfl, rfl, by rfl, by norm_num⟩

/-- C4 amended: `executionTime` measures the wall-clock time from the start
of the test case up to the completion of the agent call; it is captured
before the scoring call, so on the path where both external calls succeed
it equals the agent call's duration alone, and it includes the scoring
duration only on the caught-error path where the scoring call fails. -/
theorem executeTestCase_executionTime (threshold : ℚ) (agent : Agent)
    (scoring : ScoringService) (tc : TestCase) (r : AgentOutput)
    (h2 : 2 ≤ tc.messageBlocks.length)
    (ha : agent.sendInput (agentInputOf tc) = .ok r) :
    (∀ s : ℚ,
      scoring.scoreStrings (jsTrim r.response) (jsTrim (expectedBlockOf tc).content) = .ok s →
        (executeTestCase threshold agent scoring tc).executionTime =
          agent.sendDuration (agentInputOf tc)) ∧
    (∀ e : String,
      scoring.scoreStrings (jsTrim r.response) (jsTrim (expectedBlockOf tc).content) = .error e →
        (executeTestCase threshold agent scoring tc).executionTime =
          agent.sendDuration (agentInputOf tc) +
            scoring.scoreDuration (jsTrim r.response) (jsTrim (expectedBlockOf tc).content)) := by
  have hlt : ¬ tc.messageBlocks.length < 2 := by omega
  constructor
  · intro s hs
    simp only [executeTestCase, if_neg hlt, ha, hs]
  · intro e he
    simp only [executeTestCase, if_neg hlt, ha, he]

/-- Witness for the amended C4 at the concrete collaborators: both branch
descriptions are exercised, the success branch at `unitScoring`. -/
theorem executeTestCase_executionTime_witness :
    2 ≤ twoBlockTc.messageBlocks.length ∧
      echoAgent.sendInput (agentInputOf twoBlockTc) = .ok ⟨"hello"⟩ ∧
      (executeTestCase 1 echoAgent unitScoring twoBlockTc).executionTime =
        echoAgent.sendDuration (agentInputOf twoBlockTc) :=
  ⟨by decide, rfl,
    (executeTestCase_executionTime 1 echoAgent unitScoring twoBlockTc ⟨"hello"⟩
      (by decide) rfl).1 1 rfl⟩

/-! ## C5 — aggregate counts of the evaluation report -/

/-- C5: in the report produced by `evaluateFromDirectory`, `passedTests` is
the number of results with `success = true` (exposed as `passed` on the
projected results), `failedTests` is `totalTests - passedTests`, and
`passRate` is `passedTests / totalTests` when `totalTests > 0` and `0`
otherwise. -/
theorem evaluateFromDirectory_aggregates (agent : Agent) (scoring : ScoringService)
    (cfg : EvaluationConfig) (fs : FileSystem) (path : String) (stopOnError : Bool)
    (orders : List (List ℕ)) (now : ℕ) (elapsedMs : ℚ) :
    (evaluateFromDirectory agent scoring cfg fs path stopOnError orders now elapsedMs).passedTests =
      ((evaluateFromDirectory agent scoring cfg fs path stopOnError orders now elapsedMs).results.filter
        EvaluationResult.passed).length ∧
    (evaluateFromDirectory agent scoring cfg fs path stopOnError orders now elapsedMs).failedTests =
      (evaluateFromDirectory agent scoring cfg fs path stopOnError orders now elapsedMs).totalTests -
        (evaluateFromDirectory agent scoring cfg fs path stopOnError orders now elapsedMs).passedTests ∧
    (evaluateFromDirectory agent scoring cfg fs path stopOnError orders now elapsedMs).totalTests =
      (evaluateFromDirectory agent scoring cfg fs path stopOnError orders now elapsedMs).results.length ∧
    (evaluateFromDirectory agent scoring cfg fs path stopOnError orders now elapsedMs).passRate =
      (if 0 < (evaluateFromDirectory agent scoring cfg fs path stopOnError orders now elapsedMs).totalTests
        then ((evaluateFromDirectory agent scoring cfg fs path stopOnError orders now elapsedMs).passedTests : ℚ) /
          ((evaluateFromDirectory agent scoring cfg fs path stopOnError orders now elapsedMs).totalTests : ℚ)
        else 0) := by
  have hfilter : ∀ (l : List TestCaseEvaluation),
      ((l.map (projectResult now)).filter EvaluationResult.passed).length =
        (l.filter TestCaseEvaluation.success).length := by
    intro l
    induction l with
    | nil => rfl
    | cons a l ih =>
      by_cases h : a.success
      · simp [projectResult, List.filter, h, ih]
      · simp [projectResult, List.filter, h, ih]
  refine ⟨?_, ?_, ?_, ?_⟩
  · simp only [evaluateFromDirectory, hfilter]
  · rfl
  · simp only [evaluateFromDirectory, List.length_map]
  · rfl

/-! ## Chunking and scheduling lemmas (towards C2 and C9) -/

theorem chunkGo_flatten (k : ℕ) : ∀ (fuel : ℕ) (xs : List TestCase), xs.length ≤ fuel →
    (chunkGo k fuel xs).flatten = xs := by
  intro fuel
  induction fuel with
  | zero =>
    intro xs h
    have hx : xs = [] := List.eq_nil_of_length_eq_zero (Nat.le_zero.mp h)
    subst hx
    rfl
  | succ n ih =>
    intro xs h
    match xs with
    | [] => rfl
    | x :: rest =>
      simp only [chunkGo, List.flatten_cons]
      rw [ih (rest.drop (k - 1)) ?_]
      · rw [List.cons_append, List.take_append_drop]
      · simp only [List.length_cons] at h
        have := List.length_drop (k - 1) rest
        omega

/-- The chunks of `executeTestCasesInParallel` concatenate back to the
input, in order. -/
theorem chunkList_flatten (k : ℕ) (xs : List TestCase) :
    (chunkList k xs).flatten = xs :=
  chunkGo_flatten k xs.length xs le_rfl

theorem chunkGo_mem (k : ℕ) (hk : 1 ≤ k) : ∀ (fuel : ℕ) (xs : List TestCase)
    (c : List TestCase), c ∈ chunkGo k fuel xs → c.length ≤ k ∧ c ≠ [] := by
  intro fuel
  induction fuel with
  | zero =>
    intro xs c h
    simp [chunkGo] at h
  | succ n ih =>
    intro xs c h
    match xs with
    | [] => simp [chunkGo] at h
    | x :: rest =>
      simp only [chunkGo, List.mem_cons] at h
      rcases h with h | h
      · subst h
        refine ⟨?_, by simp⟩
        simp only [List.length_cons, List.length_take]
        omega
      · exact ih _ _ h

theorem chunkGo_eq_nil_iff (k fuel : ℕ) (xs : List TestCase) :
    chunkGo k fuel xs = [] ↔ fuel = 0 ∨ xs = [] := by
  match fuel, xs with
  | 0, _ => simp [chunkGo]
  | n + 1, [] => simp [chunkGo]
  | n + 1, x :: rest => simp [chunkGo]

theorem chunkGo_nonlast_length (k : ℕ) (hk : 1 ≤ k) : ∀ (fuel : ℕ) (xs : List TestCase)
    (i : ℕ), xs.length ≤ fuel → i + 1 < (chunkGo k fuel xs).length →
      ((chunkGo k fuel xs).getD i []).length = k := by
  intro fuel
  induction fuel with
  | zero =>
    intro xs i h hi
    simp [chunkGo] at hi
  | succ n ih =>
    intro xs i h hi
    match xs with
    | [] => simp [chunkGo] at hi
    | x :: rest =>
      simp only [chunkGo] at hi ⊢
      match i with
      | 0 =>
        simp only [List.length_cons] at hi
        have hne : ¬ (n = 0 ∨ rest.drop (k - 1) = []) := by
          intro hcase
          have hnil : chunkGo k n (rest.drop (k - 1)) = [] :=
            (chunkGo_eq_nil_iff k n (rest.drop (k - 1))).mpr hcase
          rw [hnil] at hi
          simp at hi
        push_neg at hne
        have hdrop : k - 1 < rest.length := by
          by_contra hc
          push_neg at hc
          exact hne.2 (List.drop_eq_nil_iff.mpr hc)
        simp only [List.getD_cons_zero, List.length_cons, List.length_take]
        omega
      | i + 1 =>
        simp only [List.getD_cons_succ]
        apply ih (rest.drop (k - 1)) i
        · simp only [List.length_cons] at h
          have := List.length_drop (k - 1) rest
          omega
        · simpa using hi

/-- Looking up a key present in a keyed map of a duplicate-free list finds
its value. -/
theorem lookup_map_self {β : Type} (g : ℕ → β) :
    ∀ (order : List ℕ) (j : ℕ), order.Nodup → j ∈ order →
      (order.map (fun i => (i, g i))).lookup j = some (g j) := by
  intro order
  induction order with
  | nil =>
    intro j _ hj
    simp at hj
  | cons a rest ih =>
    intro j hnd hj
    simp only [List.map_cons]
    cases hja : (j == a) with
    | true =>
      have : j = a := by simpa using hja
      subst this
      simp [List.lookup_cons, hja]
    | false =>
      have hne : j ≠ a := by simpa using hja
      have hj' : j ∈ rest := by
        rcases List.mem_cons.mp hj with h | h
        · exact absurd h hne
        · exact h
      rw [List.lookup_cons, hja]
      exact ih j (List.nodup_cons.mp hnd).2 hj'

/-- The `Promise.all` positional gathering: whatever order a chunk's tasks
complete in, as long as every task completes exactly once, the gathered
results are the chunk mapped in input order. -/
theorem gatherChunk_eq_map (f : TestCase → TestCaseEvaluation) (chunk : List TestCase)
    (order : List ℕ) (hperm : order.Perm (List.range chunk.length)) :
    gatherChunk f chunk order = chunk.map f := by
  apply List.ext_getElem
  · simp [gatherChunk]
  · intro i h1 h2
    have hlen : i < chunk.length := by simpa [gatherChunk] using h1
    simp only [gatherChunk, completionsOf]
    rw [List.getElem_map, List.getElem_range]
    have hnd : order.Nodup := hperm.nodup_iff.mpr (List.nodup_range _)
    have hmem : i ∈ order := hperm.mem_iff.mpr (List.mem_range.mpr hlen)
    rw [lookup_map_self (fun i => f (chunk.getD i default)) order i hnd hmem]
    simp only [Option.getD_some, List.getElem_map]
    rw [List.getD_eq_getElem chunk default hlen]

theorem executeChunksScheduled_eq (f : TestCase → TestCaseEvaluation) :
    ∀ (chunks : List (List TestCase)) (orders : List (List ℕ)),
      validScheduleB chunks orders = true →
        executeChunksScheduled f chunks orders = chunks.flatten.map f := by
  intro chunks
  induction chunks with
  | nil =>
    intro orders h
    match orders with
    | [] => rfl
    | o :: os => simp [validScheduleB] at h
  | cons c cs ih =>
    intro orders h
    match orders with
    | [] => simp [validScheduleB] at h
    | o :: os =>
      simp only [validScheduleB, Bool.and_eq_true, decide_eq_true_eq] at h
      simp only [executeChunksScheduled, List.zip_cons_cons, List.map_cons, List.flatten_cons,
        List.map_append]
      rw [gatherChunk_eq_map f c o h.1]
      congr 1
      exact ih os h.2

/-! ## C2 — chunked parallel execution preserves input order -/

/-- C2: for `maxConcurrency = k ≥ 1` the input is partitioned into
consecutive chunks of size `k` (the last possibly smaller but never empty,
all others exactly `k`), the chunks are processed strictly sequentially
(structurally, by the fold of `executeChunksScheduled`), and for every
valid completion schedule — i.e. regardless of the completion order inside
each chunk — the output is the input list mapped through
`executeTestCase`, so it has the input's length and its i-th entry is the
evaluation of the i-th input test case. -/
theorem executeTestCasesInParallel_spec (agent : Agent) (scoring : ScoringService)
    (threshold : ℚ) (tcs : List TestCase) (k : ℕ) (orders : List (List ℕ))
    (hk : 1 ≤ k) (hv : validScheduleB (chunkList k tcs) orders = true) :
    (chunkList k tcs).flatten = tcs ∧
    (∀ c ∈ chunkList k tcs, c.length ≤ k ∧ c ≠ []) ∧
    (∀ i : ℕ, i + 1 < (chunkList k tcs).length → ((chunkList k tcs).getD i []).length = k) ∧
    executeTestCasesInParallel agent scoring threshold tcs k orders =
      tcs.map (executeTestCase threshold agent scoring) ∧
    (executeTestCasesInParallel agent scoring threshold tcs k orders).length = tcs.length ∧
    (∀ i : ℕ, i < tcs.length →
      (executeTestCasesInParallel agent scoring threshold tcs k orders).getD i default =
        executeTestCase threshold agent scoring (tcs.getD i default)) := by
  have hmap : executeTestCasesInParallel agent scoring threshold tcs k orders =
      tcs.map (executeTestCase threshold agent scoring) := by
    unfold executeTestCasesInParallel
    rw [executeChunksScheduled_eq _ _ _ hv, chunkList_flatten]
  refine ⟨chunkList_flatten k tcs, fun c hc => chunkGo_mem k hk _ _ c hc,
    fun i hi => chunkGo_nonlast_length k hk _ _ i le_rfl hi, hmap, ?_, ?_⟩
  · rw [hmap, List.length_map]
  · intro i hi
    rw [hmap, List.getD_eq_getElem _ default (by simpa using hi), List.getElem_map,
      List.getD_eq_getElem _ default hi]

def parTcs : List TestCase :=
  [⟨"a", "a", [⟨.user, "1", [], []⟩, ⟨.assistant, "one", [], []⟩]⟩,
   ⟨"b", "b", [⟨.user, "2", [], []⟩, ⟨.assistant, "two", [], []⟩]⟩,
   ⟨"c", "c", [⟨.user, "3", [], []⟩, ⟨.assistant, "three", [], []⟩]⟩]

/-- A schedule in which the first chunk's second task finishes before its
first. -/
def parOrders : List (List ℕ) := [[1, 0], [0]]

/-- Witness for C2 at three test cases, `maxConcurrency = 2` and an
out-of-order completion schedule. -/
theorem executeTestCasesInParallel_spec_witness :
    1 ≤ 2 ∧ validScheduleB (chunkList 2 parTcs) parOrders = true ∧
      executeTestCasesInParallel echoAgent unitScoring 1 parTcs 2 parOrders =
        parTcs.map (executeTestCase 1 echoAgent unitScoring) :=
  ⟨by decide, by decide,
    (executeTestCasesInParallel_spec echoAgent unitScoring 1 parTcs 2 parOrders
      (by decide) (by decide)).2.2.2.1⟩

/-! ## Trace lemmas and C9 — the concurrency bound -/

theorem chunkTrace_countP_start (base len : ℕ) (order : List ℕ) :
    (chunkTrace base len order).countP isStart = len := by
  simp [chunkTrace, List.countP_append, List.countP_map, Function.comp_def, isStart,
    List.countP_true, List.countP_false]

theorem chunkTrace_countP_finish (base len : ℕ) (order : List ℕ) :
    (chunkTrace base len order).countP isFinish = order.length := by
  simp [chunkTrace, List.countP_append, List.countP_map, Function.comp_def, isFinish,
    List.countP_true, List.countP_false]

theorem traceOf_bound (k : ℕ) : ∀ (chunks : List (List TestCase)) (orders : List (List ℕ))
    (base : ℕ), (∀ c ∈ chunks, c.length ≤ k) → validScheduleB chunks orders = true →
    ∀ (pre suf : List ExecEvent), traceOf chunks orders base = pre ++ suf →
      pre.countP isStart ≤ pre.countP isFinish + k := by
  intro chunks
  induction chunks with
  | nil =>
    intro orders base hlen hv pre suf hsplit
    have h0 : ([] : List ExecEvent) = pre ++ suf := hsplit
    have : pre = [] := (List.append_eq_nil.mp h0.symm).1
    subst this
    simp
  | cons c cs ih =>
    intro orders base hlen hv pre suf hsplit
    match orders with
    | [] => simp [validScheduleB] at hv
    | o :: os =>
      simp only [validScheduleB, Bool.and_eq_true, decide_eq_true_eq] at hv
      obtain ⟨hperm, hv'⟩ := hv
      have holen : o.length = c.length := by simpa using hperm.length_eq
      simp only [traceOf] at hsplit
      rcases List.append_eq_append_iff.mp hsplit with ⟨e, he1, he2⟩ | ⟨e, he1, he2⟩
      · -- pre extends past the first chunk's trace
        subst he1
        have hrec : e.countP isStart ≤ e.countP isFinish + k :=
          ih os (base + c.length) (fun c' hc' => hlen c' (List.mem_cons_of_mem c hc')) hv' e suf he2
        have hcs : (chunkTrace base c.length o).countP isStart = c.length :=
          chunkTrace_countP_start base c.length o
        have hcf : (chunkTrace base c.length o).countP isFinish = c.length := by
          rw [chunkTrace_countP_finish, holen]
        simp only [List.countP_append, hcs, hcf]
        omega
      · -- pre lies inside the first chunk's trace
        have hck : c.length ≤ k := hlen c (List.mem_cons_self c cs)
        have hle : pre.countP isStart ≤ (chunkTrace base c.length o).countP isStart := by
          rw [he1, List.countP_append]
          omega
        rw [chunkTrace_countP_start] at hle
        omega

/-- C9: over any list of test cases with `maxConcurrency = k ≥ 1` and any
completion-time ordering of the underlying calls (any valid schedule), at
every point of the execution trace — every prefix `pre` — the number of
test-case tasks started but not yet finished is at most `k`; since a
task's agent invocation is issued at its start event and is over before
its finish event, at most `k` agent invocations are ever in flight. -/
theorem executeTestCasesInParallel_concurrency_bound (tcs : List TestCase) (k : ℕ)
    (orders : List (List ℕ)) (hk : 1 ≤ k)
    (hv : validScheduleB (chunkList k tcs) orders = true)
    (pre suf : List ExecEvent)
    (hsplit : traceOf (chunkList k tcs) orders 0 = pre ++ suf) :
    pre.countP isStart ≤ pre.countP isFinish + k :=
  traceOf_bound k (chunkList k tcs) orders 0
    (fun c hc => (chunkGo_mem k hk _ _ c hc).1) hv pre suf hsplit

/-- Witness for C9: three test cases at `maxConcurrency = 1`, the whole
trace as the prefix. -/
theorem executeTestCasesInParallel_concurrency_bound_witness :
    1 ≤ 1 ∧ validScheduleB (chunkList 1 parTcs) [[0], [0], [0]] = true ∧
      traceOf (chunkList 1 parTcs) [[0], [0], [0]] 0 =
        [.start 0, .finish 0, .start 1, .finish 1, .start 2, .finish 2] ++ ([] : List ExecEvent) ∧
      ([ExecEvent.start 0, .finish 0, .start 1, .finish 1, .start 2, .finish 2] :
          List ExecEvent).countP isStart ≤
        ([ExecEvent.start 0, .finish 0, .start 1, .finish 1, .start 2, .finish 2] :
          List ExecEvent).countP isFinish + 1 :=
  ⟨by decide, by decide, by decide,
    executeTestCasesInParallel_concurrency_bound parTcs 1 [[0], [0], [0]] (by decide) (by decide)
      [.start 0, .finish 0, .start 1, .finish 1, .start 2, .finish 2] [] (by decide)⟩

/-! ## C6 — which lines make tokenize fail (corrected)

The claim quantifies over every line whose text before the first colon
(leading whitespace trimmed) is not a Role label.  Tool marker lines
(`tool use: ...`, `tool response: ...`) and lines whose text before the
colon is empty satisfy that description but do not make `tokenize` fail,
so the claim is refuted by any transcript with a tool line; the amended
predicate additionally excludes tool markers and empty labels. -/

/-- The claim's own description of an offending line: it contains a colon
and the text before the first colon, after trimming leading whitespace, is
not exactly one of the closed Role labels. -/
def claimSixBad (line : List Char) : Bool :=
  match breakAtColon (trimLeftCh line) with
  | some (p, _) => !(validRoleLabels.contains (⟨p⟩ : String))
  | none => false

/-- The trimmed text before the first colon of a line (leading whitespace
removed first), the label the error message reports. -/
def lineLabel (line : List Char) : List Char :=
  match breakAtColon (trimLeftCh line) with
  | some (p, _) => trimCh p
  | none => []

/-- The amended description of an offending line: it is not a tool marker
line, it contains a colon, and the trimmed text before the first colon is
non-empty and not one of the closed Role labels. -/
def isBadLine (line : List Char) : Bool :=
  let lt := trimLeftCh line
  if toolUseMarker.isPrefixOf lt then false
  else if toolRespMarker.isPrefixOf lt then false
  else
    match breakAtColon lt with
    | some (p, _) =>
      if (trimCh p).isEmpty then false
      else !(validRoleLabels.contains (⟨trimCh p⟩ : String))
    | none => false

/-- C6 counterexample: this transcript contains a line (`tool use: ...`)
whose text before the first colon — "tool use", after trimming leading
whitespace — is not one of the closed Role labels, yet `tokenize`
succeeds instead of failing with an invalid-role error. -/
theorem tokenize_claimSix_counterexample :
    ((splitLinesCh ("assistant: hi\ntool use: search args: 1".data)).any claimSixBad = true) ∧
      tokenize "assistant: hi\ntool use: search args: 1" =
        .ok [⟨.role, "assistant"⟩, ⟨.content, "hi"⟩, ⟨.tool_use, "search args: 1"⟩] :=
  ⟨by decide, by rfl⟩

theorem tokenizeLines_error_of_find :
    ∀ (lines : List (List Char)) (acc : Option (List (List Char))) (l : List Char),
      lines.find? isBadLine = some l →
        tokenizeLines acc lines = .error (invalidRoleMsg ⟨lineLabel l⟩) := by
  intro lines
  induction lines with
  | nil =>
    intro acc l h
    simp [List.find?] at h
  | cons line rest ih =>
    intro acc l h
    rw [List.find?_cons] at h
    by_cases h1 : toolUseMarker.isPrefixOf (trimLeftCh line)
    · have hb : isBadLine line = false := by simp [isBadLine, h1]
      rw [hb] at h
      simp [tokenizeLines, h1, ih none l h]
    · by_cases h2 : toolRespMarker.isPrefixOf (trimLeftCh line)
      · have hb : isBadLine line = false := by simp [isBadLine, h1, h2]
        rw [hb] at h
        simp [tokenizeLines, h1, h2, ih none l h]
      · cases hcol : breakAtColon (trimLeftCh line) with
        | none =>
          have hb : isBadLine line = false := by simp [isBadLine, h1, h2, hcol]
          rw [hb] at h
          simp only [tokenizeLines, hcol]
          simp only [if_neg h1, if_neg h2]
          exact ih _ l h
        | some pa =>
          obtain ⟨p, af⟩ := pa
          by_cases h3 : (trimCh p).isEmpty
          · have hb : isBadLine line = false := by simp [isBadLine, h1, h2, hcol, h3]
            rw [hb] at h
            simp only [tokenizeLines, hcol]
            simp only [if_neg h1, if_neg h2]
            rw [if_pos h3]
            exact ih _ l h
          · by_cases h4 : (⟨trimCh p⟩ : String) ∈ validRoleLabels
            · have hb : isBadLine line = false := by simp [isBadLine, h1, h2, hcol, h3, h4]
              rw [hb] at h
              simp [tokenizeLines, h1, h2, hcol, h3, h4, ih _ l h]
            · have hb : isBadLine line = true := by simp [isBadLine, h1, h2, hcol, h3, h4]
              rw [hb] at h
              have hl : line = l := by simpa using h
              subst hl
              simp [tokenizeLines, h1, h2, hcol, h3, h4, lineLabel]

/-- C6 amended: `tokenize` fails, naming the offending label verbatim in an
error of the form "Invalid role: `<label>`. Valid roles are: ...", exactly
when some line of the input contains a colon whose trimmed text before the
first colon is non-empty, is not a tool marker, and is not one of the
closed Role labels; the label reported is that of the first such line. -/
theorem tokenize_invalid_role (text : String) (l : List Char)
    (h : (splitLinesCh text.data).find? isBadLine = some l) :
    tokenize text = .error (invalidRoleMsg ⟨lineLabel l⟩) :=
  tokenizeLines_error_of_find (splitLinesCh text.data) none l h

/-- Witness for the amended C6: the `user123` line of the unit test. -/
theorem tokenize_invalid_role_witness :
    (splitLinesCh ("user: Hello\nuser123: nope".data)).find? isBadLine =
        some ("user123: nope".data) ∧
      tokenize "user: Hello\nuser123: nope" =
        .error "Invalid role: user123. Valid roles are: user, assistant, human agent" :=
  ⟨by rfl, tokenize_invalid_role "user: Hello\nuser123: nope" ("user123: nope".data) (by rfl)⟩

/-! ## C7 — invalid tool args (corrected)

The claim asserts that any transcript containing a `tool use` line with
invalid JSON after `args:` makes `parse` fail with exactly "Tool args must
be valid JSON".  Because `parse` tokenizes the whole transcript first, an
invalid role label anywhere in the transcript preempts the JSON
validation with a different message, refuting the claim as stated; the
amended statement assumes tokenization succeeds. -/

def exceptOkB {ε α : Type} : Except ε α → Bool
  | .ok _ => true
  | .error _ => false

/-- Some token of the sequence is a `tool_use` whose value fails the
`args:` JSON validation. -/
def hasBadToolUse (toks : List Token) : Bool :=
  toks.any (fun t => (t.type == TokenType.tool_use) && !(exceptOkB (parseToolUse t.value)))

/-- The claim's own description of an offending line: a `tool use` line
whose text after the first `args:` marker is not syntactically valid
JSON. -/
def claimSevenBad (line : List Char) : Bool :=
  let lt := trimLeftCh line
  toolUseMarker.isPrefixOf lt &&
    (match splitAtSub argsMarker (stripOneSpace (lt.drop toolUseMarker.length)) with
     | some (_, a) => !(jsonValid ⟨trimCh a⟩)
     | none => false)

/-- C7 counterexample: a transcript containing a `tool use` line whose
`args:` text is not valid JSON, for which `parse` nonetheless fails with
the invalid-role message of a later line — not with "Tool args must be
valid JSON". -/
theorem parse_claimSeven_counterexample :
    ((splitLinesCh ("tool use: x args: nope\nbadrole: hi".data)).any claimSevenBad = true) ∧
      parse "tool use: x args: nope\nbadrole: hi" "test-case" =
        .error (invalidRoleMsg "badrole") ∧
      invalidRoleMsg "badrole" ≠ toolArgsErrorMsg :=
  ⟨by decide, by rfl, by decide⟩

theorem parseToolUse_eq_error (v : String) (h : exceptOkB (parseToolUse v) = false) :
    parseToolUse v = .error toolArgsErrorMsg := by
  unfold parseToolUse at h ⊢
  by_cases hj : jsonValid ⟨trimCh (match splitAtSub argsMarker v.data with
      | some (b, a) => (b, a)
      | none => (v.data, [])).2⟩
  · rw [if_pos hj] at h
    simp [exceptOkB] at h
  · rw [if_neg hj]

theorem buildBlocks_error_of_badTool :
    ∀ (toks : List Token) (cur : Option MessageBlock),
      hasBadToolUse toks = true → buildBlocks cur toks = .error toolArgsErrorMsg := by
  intro toks
  induction toks with
  | nil =>
    intro cur h
    simp [hasBadToolUse] at h
  | cons tok rest ih =>
    intro cur h
    simp only [hasBadToolUse, List.any_cons, Bool.or_eq_true, Bool.and_eq_true,
      Bool.not_eq_true', beq_iff_eq] at h
    have hrest : rest.any (fun t => (t.type == TokenType.tool_use) &&
        !(exceptOkB (parseToolUse t.value))) = true →
        hasBadToolUse rest = true := fun hh => hh
    cases htype : tok.type with
    | role =>
      have hr : hasBadToolUse rest = true := by
        rcases h with ⟨h1, _⟩ | h
        · rw [htype] at h1
          exact absurd h1 (by decide)
        · exact hrest h
      simp [buildBlocks, htype, ih _ hr]
    | content =>
      have hr : hasBadToolUse rest = true := by
        rcases h with ⟨h1, _⟩ | h
        · rw [htype] at h1
          exact absurd h1 (by decide)
        · exact hrest h
      cases cur with
      | some b => simp [buildBlocks, htype, ih _ hr]
      | none => simp [buildBlocks, htype, ih _ hr]
    | tool_response =>
      have hr : hasBadToolUse rest = true := by
        rcases h with ⟨h1, _⟩ | h
        · rw [htype] at h1
          exact absurd h1 (by decide)
        · exact hrest h
      cases cur with
      | some b => simp [buildBlocks, htype, ih _ hr]
      | none => simp [buildBlocks, htype, ih _ hr]
    | tool_use =>
      cases hok : exceptOkB (parseToolUse tok.value) with
      | false =>
        have := parseToolUse_eq_error tok.value hok
        simp [buildBlocks, htype, this]
      | true =>
        have hr : hasBadToolUse rest = true := by
          rcases h with ⟨_, h2⟩ | h
          · rw [hok] at h2
            exact absurd h2 (by decide)
          · exact hrest h
        obtain ⟨tu, htu⟩ : ∃ tu, parseToolUse tok.value = .ok tu := by
          cases hpt : parseToolUse tok.value with
          | ok tu => exact ⟨tu, rfl⟩
          | error e =>
            rw [hpt] at hok
            simp [exceptOkB] at hok
        cases cur with
        | some b => simp [buildBlocks, htype, htu, ih _ hr]
        | none => simp [buildBlocks, htype, htu, ih _ hr]

/-- C7 amended: provided tokenization succeeds, a transcript in which some
`tool use` token's text after the `args:` marker is not syntactically
valid JSON makes `parse` fail with exactly "Tool args must be valid JSON";
and for valid JSON the args are stored as the original text after the
marker (trimmed), not re-serialized — witnessed by the inner-whitespace
preserving example in the second conjunct. -/
theorem parse_invalid_tool_args (text name : String) (toks : List Token)
    (ht : tokenize text = .ok toks) (hbad : hasBadToolUse toks = true) :
    parse text name = .error toolArgsErrorMsg ∧
      parse "assistant: ok\ntool use: search args: \x7b\"query\": \"test\"\x7d\ntool response: done" "t" =
        .ok ⟨"", "t", [⟨.assistant, "ok", [⟨"search", "\x7b\"query\": \"test\"\x7d"⟩], [⟨"done"⟩]⟩]⟩ := by
  constructor
  · unfold parse
    rw [ht]
    simp [buildBlocks_error_of_badTool toks none hbad]
  · rfl

/-- Witness for the amended C7 at the invalid-args unit test input. -/
theorem parse_invalid_tool_args_witness :
    tokenize "assistant: Let me check\ntool use: search args: invalid json" =
        .ok [⟨.role, "assistant"⟩, ⟨.content, "Let me check"⟩,
          ⟨.tool_use, "search args: invalid json"⟩] ∧
      hasBadToolUse [⟨.role, "assistant"⟩, ⟨.content, "Let me check"⟩,
          ⟨.tool_use, "search args: invalid json"⟩] = true ∧
      parse "assistant: Let me check\ntool use: search args: invalid json" "t" =
        .error toolArgsErrorMsg :=
  ⟨by rfl, by rfl,
    (parse_invalid_tool_args "assistant: Let me check\ntool use: search args: invalid json" "t"
      [⟨.role, "assistant"⟩, ⟨.content, "Let me check"⟩, ⟨.tool_use, "search args: invalid json"⟩]
      (by rfl) (by rfl)).1⟩

/-! ## C8 — loader error policy -/

/-- Whether a file loads successfully. -/
def fileOkB (e : FileEntry) : Bool := exceptOkB (loadFile e)

def loadOk (e : FileEntry) : Option TestCase :=
  match loadFile e with
  | .ok tc => some tc
  | .error _ => none

def loadErr (e : FileEntry) : Option LoadError :=
  match loadFile e with
  | .ok _ => none
  | .error err => some err

theorem processFiles_stop_eq : ∀ (files : List FileEntry),
    processFiles true files =
      ⟨(files.takeWhile fileOkB).filterMap loadOk,
       ((files.dropWhile fileOkB).head?.toList).filterMap loadErr⟩ := by
  intro files
  induction files with
  | nil => rfl
  | cons e rest ih =>
    cases hl : loadFile e with
    | ok tc =>
      have hok : fileOkB e = true := by simp [fileOkB, hl, exceptOkB]
      simp [processFiles, hl, List.takeWhile_cons, List.dropWhile_cons, hok, loadOk,
        List.filterMap_cons, ih]
    | error err =>
      have hok : fileOkB e = false := by simp [fileOkB, hl, exceptOkB]
      simp [processFiles, hl, List.takeWhile_cons, List.dropWhile_cons, hok, loadErr,
        List.filterMap_cons]

theorem processFiles_continue_eq : ∀ (files : List FileEntry),
    processFiles false files = ⟨files.filterMap loadOk, files.filterMap loadErr⟩ := by
  intro files
  induction files with
  | nil => rfl
  | cons e rest ih =>
    cases hl : loadFile e with
    | ok tc =>
      simp [processFiles, hl, loadOk, loadErr, List.filterMap_cons, ih]
    | error err =>
      simp [processFiles, hl, loadOk, loadErr, List.filterMap_cons, ih]

/-- C8: `loadFromDirectory` never fails at top level (it is a total
function into `LoadResult`); a non-existent directory yields exactly one
error entry carrying the directory path; with `stopOnError = true` the
test cases are exactly the successfully parsed files preceding the first
failing file of the filtered enumeration, together with exactly that
file's error entry (none when every file loads); with
`stopOnError = false` every successfully parsed file is returned together
with one error entry per failing file, regardless of position. -/
theorem loadFromDirectory_spec (fs : FileSystem) (path : String) :
    (fs path = none → ∀ b : Bool, loadFromDirectory fs path b =
      ⟨[], [⟨path, dirNotFoundMsg path⟩]⟩) ∧
    (∀ entries : List FileEntry, fs path = some entries →
      loadFromDirectory fs path true =
        ⟨((entries.filter acceptedFile).takeWhile fileOkB).filterMap loadOk,
         (((entries.filter acceptedFile).dropWhile fileOkB).head?.toList).filterMap loadErr⟩ ∧
      loadFromDirectory fs path false =
        ⟨(entries.filter acceptedFile).filterMap loadOk,
         (entries.filter acceptedFile).filterMap loadErr⟩) := by
  constructor
  · intro h b
    simp [loadFromDirectory, h]
  · intro entries h
    constructor
    · simp [loadFromDirectory, h, processFiles_stop_eq]
    · simp [loadFromDirectory, h, processFiles_continue_eq]

/-- Witness for C8 at the concrete three-file directory of the unit test
(valid, invalid, valid). -/
theorem loadFromDirectory_spec_witness :
    tmpFs "/tmp/t" = some [tmpValid1, tmpInvalid, tmpValid2] ∧
      (loadFromDirectory tmpFs "/tmp/t" true =
        ⟨((([tmpValid1, tmpInvalid, tmpValid2].filter acceptedFile).takeWhile fileOkB).filterMap loadOk),
         (((([tmpValid1, tmpInvalid, tmpValid2].filter acceptedFile).dropWhile fileOkB).head?.toList).filterMap loadErr)⟩ ∧
      loadFromDirectory tmpFs "/tmp/t" false =
        ⟨(([tmpValid1, tmpInvalid, tmpValid2].filter acceptedFile).filterMap loadOk),
         (([tmpValid1, tmpInvalid, tmpValid2].filter acceptedFile).filterMap loadErr)⟩) :=
  ⟨rfl, (loadFromDirectory_spec tmpFs "/tmp/t").2 [tmpValid1, tmpInvalid, tmpValid2] rfl⟩

/-! ## C10 — the report carries no record of loader errors -/

/-- C10: the report of `evaluateFromDirectory` carries no record of the
loader's per-file errors: its `totalTests` is the number of successfully
loaded test cases; the whole report is a function of the loaded test cases
only (two load results with the same `testCases` — however their `errors`
differ — give identical reports); and a non-existent directory yields an
empty report with `totalTests = 0` and `passRate = 0`. -/
theorem evaluateFromDirectory_ignores_load_errors (agent : Agent) (scoring : ScoringService)
    (cfg : EvaluationConfig) (fs : FileSystem) (path : String) (stopOnError : Bool)
    (orders : List (List ℕ)) (now : ℕ) (elapsedMs : ℚ) :
    (validScheduleB (chunkList (maxConcurrencyOf cfg)
        (loadFromDirectory fs path stopOnError).testCases) orders = true →
      (evaluateFromDirectory agent scoring cfg fs path stopOnError orders now elapsedMs).totalTests =
        (loadFromDirectory fs path stopOnError).testCases.length) ∧
    (∀ (fs' : FileSystem) (path' : String) (stop' : Bool),
      (loadFromDirectory fs' path' stop').testCases =
          (loadFromDirectory fs path stopOnError).testCases →
        evaluateFromDirectory agent scoring cfg fs' path' stop' orders now elapsedMs =
          evaluateFromDirectory agent scoring cfg fs path stopOnError orders now elapsedMs) ∧
    (fs path = none →
      (evaluateFromDirectory agent scoring cfg fs path stopOnError orders now elapsedMs).totalTests = 0 ∧
      (evaluateFromDirectory agent scoring cfg fs path stopOnError orders now elapsedMs).passRate = 0 ∧
      (evaluateFromDirectory agent scoring cfg fs path stopOnError orders now elapsedMs).results = []) := by
  refine ⟨?_, ?_, ?_⟩
  · intro hv
    have hmap := executeChunksScheduled_eq (executeTestCase (thresholdOf cfg) agent scoring)
      (chunkList (maxConcurrencyOf cfg) (loadFromDirectory fs path stopOnError).testCases)
      orders hv
    simp only [evaluateFromDirectory, executeTestCasesInParallel]
    rw [hmap, chunkList_flatten, List.length_map]
  · intro fs' path' stop' heq
    simp only [evaluateFromDirectory, executeTestCasesInParallel]
    rw [heq]
  · intro hnone
    have hempty : (loadFromDirectory fs path stopOnError).testCases = [] := by
      simp [loadFromDirectory, hnone]
    simp [evaluateFromDirectory, executeTestCasesInParallel, hempty, chunkList, chunkGo,
      executeChunksScheduled]

/-- Witness for C10 at the concrete directory, the default config and a
valid singleton schedule (one loaded test case, `maxConcurrency = 5`). -/
theorem evaluateFromDirectory_ignores_load_errors_witness :
    validScheduleB (chunkList (maxConcurrencyOf ⟨none, none⟩)
        (loadFromDirectory tmpFs "/tmp/t" true).testCases) [[0]] = true ∧
      (evaluateFromDirectory echoAgent unitScoring ⟨none, none⟩ tmpFs "/tmp/t" true
          [[0]] 0 0).totalTests =
        (loadFromDirectory tmpFs "/tmp/t" true).testCases.length :=
  ⟨by rfl,
    (evaluateFromDirectory_ignores_load_errors echoAgent unitScoring ⟨none, none⟩ tmpFs
      "/tmp/t" true [[0]] 0 0).1 (by rfl)⟩

end HeboEval
